import Mathlib

/-!
Shallow embedding of `src/nrf-app/src/lib.rs`: a cooperative dispatch engine
(bounded FIFO queues of deferred steps, a two-level strict-priority loop, and
a state-machine protocol whose transitions may emit commands).

Modelling conventions:
* the bounded queue (`heapless::mpmc::Q64`, a library type whose implementation
  is not part of this repository) is modelled from the spec as a list of at most
  `capacity = 64` elements, front at the head;
* Rust callbacks `fn() -> ()`, `fn(u32)`, `fn(u32, u32)` are opaque values of a
  type parameter `F`; invoking one is recorded in an effect trace;
* `u32` arguments are carried, never computed with, so they are `Nat`;
* the mutable `State`, handler and queue threaded by reference in Rust are
  threaded explicitly through `DispatchResult`;
* the placeholder application types (`State`/`Command`/`Event` and the
  `transition` function, which the spec calls pluggable collaborators) are type
  parameters of the engine; the concrete stubs of the `state_machine` module
  are embedded separately below;
* the dispatch loops take a fuel argument; running out of queue items is the
  `idle` outcome (the `asm::wfi()` point, where the pure model stops because
  new work can only arrive from interrupts).
-/

/-- Modelled from the spec: `heapless::mpmc::Q64` is a bounded FIFO of fixed
capacity 64 (the queue implementation is library code, not in this repository). -/
def capacity : Nat := 64

/-- Modelled from the spec: `Q64::enqueue` succeeds and stores the item in FIFO
position (at the tail) if capacity remains, otherwise drops the item and
reports failure via the boolean component. -/
def Q64.enqueue {α : Type} (q : List α) (x : α) : List α × Bool :=
  if q.length < capacity then (q ++ [x], true) else (q, false)

/-- Modelled from the spec: `Q64::dequeue` returns the oldest stored item or
none if the queue is empty. -/
def Q64.dequeue {α : Type} : List α → Option (α × List α)
  | [] => none
  | x :: xs => some (x, xs)

/-- `enum Transition` of the `state_machine` module, generic in the state type. -/
inductive Transition (St : Type) where
  | Next (s : St)
  | Same
  deriving DecidableEq

/-- `enum AsyncStep`: deferred work items. `Cmd`/`Ev` are the application's
command/event vocabulary, `F` the type of raw callbacks. -/
inductive AsyncStep (Cmd Ev F : Type) where
  | StepUnit (run : F)
  | StepU32 (run : F) (arg : Nat)
  | Step2U32 (run : F) (arg0 arg1 : Nat)
  | Perform (command : Cmd)
  | Notify (event : Ev)
  | Stop
  deriving DecidableEq

/-- Observable effects of dispatching a step: raw-callback invocations (with
their carried arguments) and delegations to the command handler. -/
inductive Effect (Cmd F : Type) where
  | callUnit (f : F)
  | callU32 (f : F) (arg : Nat)
  | call2U32 (f : F) (arg0 arg1 : Nat)
  | handled (c : Cmd)
  deriving DecidableEq

/-- `AsyncStep::enqueue`: `queue.enqueue(self).ok()` — the boolean result of the
underlying queue enqueue is discarded and unit is returned; in the embedding the
new queue contents are returned with no success indication. -/
def AsyncStep.enqueue {Cmd Ev F : Type} (self : AsyncStep Cmd Ev F)
    (queue : List (AsyncStep Cmd Ev F)) : List (AsyncStep Cmd Ev F) :=
  (Q64.enqueue queue self).1

/-- `impl EventNotifier for AsyncQueue`: construct a `Notify` step carrying the
event and enqueue it on the queue itself. -/
def AsyncQueue.notify {Cmd Ev F : Type} (q : List (AsyncStep Cmd Ev F)) (e : Ev) :
    List (AsyncStep Cmd Ev F) :=
  (AsyncStep.Notify e).enqueue q

/-- Result of `AsyncStep::dispatch`: the queue, state and handler after the
step (threaded explicitly instead of `&mut`), the effect trace, and the
continue-signal returned by `dispatch`. -/
structure DispatchResult (St Cmd Ev H F : Type) where
  queue : List (AsyncStep Cmd Ev F)
  state : St
  handler : H
  trace : List (Effect Cmd F)
  cont : Bool
  deriving DecidableEq

section Engine

variable {St Cmd Ev H F : Type}

/-- `AsyncStep::dispatch`. `transition` is the state-machine transition
function and `handle` the command handler: `handle h c` returns the updated
handler together with the events it posts, in order, through the
`EventNotifier` capability of the queue it was given (the same queue the
`Perform` step was dispatched from). -/
def dispatch (transition : St → Ev → Option Cmd × Transition St)
    (handle : H → Cmd → H × List Ev)
    (step : AsyncStep Cmd Ev F) (queue : List (AsyncStep Cmd Ev F))
    (state : St) (handler : H) : DispatchResult St Cmd Ev H F :=
  match step with
  | .StepUnit run => ⟨queue, state, handler, [.callUnit run], true⟩
  | .StepU32 run arg => ⟨queue, state, handler, [.callU32 run arg], true⟩
  | .Step2U32 run arg0 arg1 => ⟨queue, state, handler, [.call2U32 run arg0 arg1], true⟩
  | .Perform command =>
      let r := handle handler command
      ⟨r.2.foldl (fun q e => AsyncQueue.notify q e) queue, state, r.1,
        [.handled command], true⟩
  | .Notify event =>
      let r := transition state event
      let state' := match r.2 with
        | .Next s => s
        | .Same => state
      let queue' := match r.1 with
        | some c => (AsyncStep.Perform c).enqueue queue
        | none => queue
      ⟨queue', state', handler, [], true⟩
  | .Stop => ⟨queue, state, handler, [], false⟩

/-- How a dispatch loop ended: a `Stop` step was dispatched, the queue(s) ran
dry (the `asm::wfi()` idle point), or the fuel bound was reached. -/
inductive RunStatus where
  | stopped
  | idle
  | fuelOut
  deriving DecidableEq

/-- Result of the single-queue loop `run_queue`: final state, leftover queue,
final handler, the concatenated effect trace, and the dispatched steps in
dispatch order. -/
structure RunResult (St Cmd Ev H F : Type) where
  status : RunStatus
  state : St
  queue : List (AsyncStep Cmd Ev F)
  handler : H
  trace : List (Effect Cmd F)
  dispatched : List (AsyncStep Cmd Ev F)
  deriving DecidableEq

/-- `AsyncStep::run_queue`: repeatedly dequeue and dispatch from one queue
until a `Stop` step returns the continue-signal false (return the state) or
the queue is empty (`asm::wfi()`; the pure model ends with status `idle`). -/
def run_queue (transition : St → Ev → Option Cmd × Transition St)
    (handle : H → Cmd → H × List Ev) :
    Nat → List (AsyncStep Cmd Ev F) → St → H → RunResult St Cmd Ev H F
  | 0, queue, state, handler => ⟨.fuelOut, state, queue, handler, [], []⟩
  | fuel + 1, queue, state, handler =>
    match Q64.dequeue queue with
    | none => ⟨.idle, state, queue, handler, [], []⟩
    | some (step, rest) =>
      let r := dispatch transition handle step rest state handler
      if r.cont then
        let k := run_queue transition handle fuel r.queue r.state r.handler
        ⟨k.status, k.state, k.queue, k.handler, r.trace ++ k.trace, step :: k.dispatched⟩
      else
        ⟨.stopped, r.state, r.queue, r.handler, r.trace, [step]⟩

/-- Result of the two-queue loop `run_queue_hilo` (both queues are carried). -/
structure RunResultHilo (St Cmd Ev H F : Type) where
  status : RunStatus
  state : St
  hi_queue : List (AsyncStep Cmd Ev F)
  lo_queue : List (AsyncStep Cmd Ev F)
  handler : H
  trace : List (Effect Cmd F)
  dispatched : List (AsyncStep Cmd Ev F)
  deriving DecidableEq

/-- `AsyncStep::run_queue_hilo`: on each iteration try the priority queue
first; only if it is empty try the default queue; only if both are empty,
idle-wait (`asm::wfi()`, status `idle` in the pure model). A step dequeued
from a queue is dispatched with that same queue as notifier. -/
def run_queue_hilo (transition : St → Ev → Option Cmd × Transition St)
    (handle : H → Cmd → H × List Ev) :
    Nat → List (AsyncStep Cmd Ev F) → List (AsyncStep Cmd Ev F) → St → H →
      RunResultHilo St Cmd Ev H F
  | 0, hi, lo, state, handler => ⟨.fuelOut, state, hi, lo, handler, [], []⟩
  | fuel + 1, hi, lo, state, handler =>
    match Q64.dequeue hi with
    | some (step, rest) =>
      let r := dispatch transition handle step rest state handler
      if r.cont then
        let k := run_queue_hilo transition handle fuel r.queue lo r.state r.handler
        ⟨k.status, k.state, k.hi_queue, k.lo_queue, k.handler, r.trace ++ k.trace,
          step :: k.dispatched⟩
      else
        ⟨.stopped, r.state, r.queue, lo, r.handler, r.trace, [step]⟩
    | none =>
      match Q64.dequeue lo with
      | some (step, rest) =>
        let r := dispatch transition handle step rest state handler
        if r.cont then
          let k := run_queue_hilo transition handle fuel hi r.queue r.state r.handler
          ⟨k.status, k.state, k.hi_queue, k.lo_queue, k.handler, r.trace ++ k.trace,
            step :: k.dispatched⟩
        else
          ⟨.stopped, r.state, hi, r.queue, r.handler, r.trace, [step]⟩
      | none => ⟨.idle, state, hi, lo, handler, [], []⟩

end Engine

/-- The two process-wide singleton queues `DEFAULT_ASYNC_QUEUE` and
`PRIORITY_ASYNC_QUEUE`, modelled as explicit global state. -/
structure Globals (Cmd Ev F : Type) where
  default_async_queue : List (AsyncStep Cmd Ev F)
  priority_async_queue : List (AsyncStep Cmd Ev F)
  deriving DecidableEq

/-- `AsyncStep::enqueue_default`: `self.enqueue(&DEFAULT_ASYNC_QUEUE)`,
returning unit (here: the updated globals, with no success indication). -/
def AsyncStep.enqueue_default {Cmd Ev F : Type} (self : AsyncStep Cmd Ev F)
    (g : Globals Cmd Ev F) : Globals Cmd Ev F :=
  { g with default_async_queue := self.enqueue g.default_async_queue }

/-- `AsyncStep::enqueue_priority`: `self.enqueue(&PRIORITY_ASYNC_QUEUE)`. -/
def AsyncStep.enqueue_priority {Cmd Ev F : Type} (self : AsyncStep Cmd Ev F)
    (g : Globals Cmd Ev F) : Globals Cmd Ev F :=
  { g with priority_async_queue := self.enqueue g.priority_async_queue }

namespace state_machine

/-- `enum State { Standby }` — the placeholder state vocabulary of `mod state_machine`. -/
inductive State where
  | Standby
  deriving DecidableEq

/-- `enum Command { }` — empty placeholder. -/
inductive Command : Type

/-- `enum Event { }` — empty placeholder. -/
inductive Event : Type

/-- `state_machine::transition`: the reference stub, returning `(None, Same)`
for every input. -/
def transition (_s : State) (_e : Event) : Option Command × Transition State :=
  (none, Transition.Same)

end state_machine

/-- Demo transition function on `Nat` vocabulary, used to instantiate the
generic theorems at concrete inputs. -/
def tDemo (s e : Nat) : Option Nat × Transition Nat :=
  (some (s + e), Transition.Next (s + e))

/-- Demo transition function that, like the reference stub, produces no
command and keeps the state. -/
def tSame (_s _e : Nat) : Option Nat × Transition Nat :=
  (none, Transition.Same)

/-- Demo command handler on `Nat` vocabulary: absorbs the command into its
state and notifies one event. -/
def hDemo (h c : Nat) : Nat × List Nat :=
  (h + c, [c])

/-- Test driver: enqueue a list of items in order onto a queue, counting the
enqueue calls that report failure. -/
def enqueueAll {α : Type} : List α → List α → List α × Nat
  | [], q => (q, 0)
  | x :: xs, q =>
    let r := Q64.enqueue q x
    let k := enqueueAll xs r.1
    (k.1, (if r.2 then 0 else 1) + k.2)

/-- Test driver: the items retrievable from a queue by repeated dequeue, in
order, bounded by fuel. -/
def drain {α : Type} : Nat → List α → List α
  | 0, _ => []
  | fuel + 1, q =>
    match Q64.dequeue q with
    | none => []
    | some p => p.1 :: drain fuel p.2

/-- Claim C1: dispatching a `Notify(event)` step calls `transition(state,
event)`; `Next(s)` replaces the state and `Same` leaves it unchanged; when the
returned command is `Some(c)` a `Perform(c)` step is enqueued at the tail of
the same queue the `Notify` was dispatched from (it never overtakes items
already queued), and when it is `None` nothing is enqueued. -/
theorem dispatch_notify_spec {St Cmd Ev H F : Type}
    (transition : St → Ev → Option Cmd × Transition St)
    (handle : H → Cmd → H × List Ev)
    (e : Ev) (q : List (AsyncStep Cmd Ev F)) (s : St) (h : H) :
    (dispatch transition handle (.Notify e) q s h).state =
      (match (transition s e).2 with
        | .Next s' => s'
        | .Same => s) ∧
    (dispatch transition handle (.Notify e) q s h).queue =
      (match (transition s e).1 with
        | some c => (AsyncStep.Perform c).enqueue q
        | none => q) ∧
    (∀ c, (transition s e).1 = some c → q.length < capacity →
      (dispatch transition handle (.Notify e) q s h).queue = q ++ [AsyncStep.Perform c]) ∧
    ((transition s e).1 = none →
      (dispatch transition handle (.Notify e) q s h).queue = q) ∧
    (dispatch transition handle (.Notify e) q s h).handler = h := by
  refine ⟨rfl, rfl, ?_, ?_, rfl⟩
  · intro c hc hlen
    simp [dispatch, hc, AsyncStep.enqueue, Q64.enqueue, hlen]
  · intro hc
    simp [dispatch, hc]

/-- Witness for C1 at a concrete input: the produced command is appended at the
tail, after the item already in the queue. -/
theorem dispatch_notify_spec_witness :
    (dispatch tDemo hDemo (AsyncStep.Notify (5 : Nat))
        ([AsyncStep.Stop] : List (AsyncStep Nat Nat Nat)) 3 0).queue =
      [AsyncStep.Stop, AsyncStep.Perform 8] :=
  (dispatch_notify_spec tDemo hDemo 5 [AsyncStep.Stop] 3 0).2.2.1 8 (by decide) (by decide)

/-- Claim C2: `enqueue(item) -> bool` succeeds and stores the item in FIFO
position (at the tail) when capacity remains, otherwise drops the item and
returns false, so the caller can observe queue-full from the result. -/
theorem q64_enqueue_spec (α : Type) (q : List α) (x : α) :
    ((Q64.enqueue q x).2 = true ↔ q.length < capacity) ∧
    (q.length < capacity → Q64.enqueue q x = (q ++ [x], true)) ∧
    (¬ q.length < capacity → Q64.enqueue q x = (q, false)) := by
  refine ⟨?_, ?_, ?_⟩
  · by_cases hc : q.length < capacity <;> simp [Q64.enqueue, hc]
  · intro hc; simp [Q64.enqueue, hc]
  · intro hc; simp [Q64.enqueue, hc]

/-- Witness for C2 at a concrete input: enqueue on a non-full queue stores the
item at the tail and returns true. -/
theorem q64_enqueue_spec_witness :
    Q64.enqueue ([0] : List Nat) 1 = ([0, 1], true) :=
  (q64_enqueue_spec Nat [0] 1).2.1 (by decide)

/-- Claim C5: `dispatch` returns the continue-signal false exactly on `Stop`
(the loop then exits returning the current state) and true for every other
variant; `Perform(c)` delegates to the handler with the same queue as the
notifier; the raw-callback variants invoke the carried callback with the
carried fixed-width arguments. -/
theorem dispatch_cont_spec {St Cmd Ev H F : Type}
    (transition : St → Ev → Option Cmd × Transition St)
    (handle : H → Cmd → H × List Ev)
    (q rest : List (AsyncStep Cmd Ev F)) (s : St) (h : H)
    (f : F) (a a0 a1 : Nat) (c : Cmd) (e : Ev) (n : Nat) :
    dispatch transition handle .Stop q s h = ⟨q, s, h, [], false⟩ ∧
    dispatch transition handle (.StepUnit f) q s h = ⟨q, s, h, [.callUnit f], true⟩ ∧
    dispatch transition handle (.StepU32 f a) q s h = ⟨q, s, h, [.callU32 f a], true⟩ ∧
    dispatch transition handle (.Step2U32 f a0 a1) q s h =
      ⟨q, s, h, [.call2U32 f a0 a1], true⟩ ∧
    dispatch transition handle (.Perform c) q s h =
      ⟨(handle h c).2.foldl AsyncQueue.notify q, s, (handle h c).1, [.handled c], true⟩ ∧
    (dispatch transition handle (.Notify e) q s h).cont = true ∧
    run_queue transition handle (n + 1) (.Stop :: rest) s h =
      ⟨.stopped, s, rest, h, [], [.Stop]⟩ :=
  ⟨rfl, rfl, rfl, rfl, rfl, rfl, rfl⟩

/-- Claim C6: the transition function is pure and deterministic (in this pure
embedding it is a function of its two inputs alone, so repeated calls agree and
nothing is mutated), and the reference stub returns `(None, Same)` for every
input. -/
theorem transition_stub_spec (s : state_machine.State) (e : state_machine.Event) :
    state_machine.transition s e = (none, Transition.Same) := rfl

/-- Claim C7: `notify(e)` on a queue (the queue type implements the
`EventNotifier` capability directly) constructs a `Notify` step carrying `e`
and enqueues it on that same queue: at the tail while capacity remains,
dropped when full. -/
theorem notify_spec {Cmd Ev F : Type} (q : List (AsyncStep Cmd Ev F)) (e : Ev) :
    AsyncQueue.notify q e = (AsyncStep.Notify e).enqueue q ∧
    (q.length < capacity → AsyncQueue.notify q e = q ++ [AsyncStep.Notify e]) ∧
    (¬ q.length < capacity → AsyncQueue.notify q e = q) := by
  refine ⟨rfl, ?_, ?_⟩ <;> intro hc <;>
    simp [AsyncQueue.notify, AsyncStep.enqueue, Q64.enqueue, hc]

/-- Witness for C7 at a concrete input. -/
theorem notify_spec_witness :
    AsyncQueue.notify ([] : List (AsyncStep Nat Nat Nat)) 7 = [AsyncStep.Notify 7] :=
  (notify_spec [] 7).2.1 (by decide)

/-- Claim C9: `AsyncStep::enqueue` and its wrappers `enqueue_default` and
`enqueue_priority` return unit, discarding the boolean of the underlying queue
enqueue: on a full queue the step is dropped with no caller-visible indication
of failure through this interface. -/
theorem enqueue_discards_result {Cmd Ev F : Type} (step : AsyncStep Cmd Ev F)
    (q : List (AsyncStep Cmd Ev F)) (g : Globals Cmd Ev F) :
    AsyncStep.enqueue step q = (Q64.enqueue q step).1 ∧
    (capacity ≤ q.length → AsyncStep.enqueue step q = q) ∧
    (AsyncStep.enqueue_default step g).priority_async_queue = g.priority_async_queue ∧
    (AsyncStep.enqueue_default step g).default_async_queue =
      AsyncStep.enqueue step g.default_async_queue ∧
    (AsyncStep.enqueue_priority step g).default_async_queue = g.default_async_queue ∧
    (AsyncStep.enqueue_priority step g).priority_async_queue =
      AsyncStep.enqueue step g.priority_async_queue ∧
    (capacity ≤ g.default_async_queue.length → AsyncStep.enqueue_default step g = g) := by
  refine ⟨rfl, ?_, rfl, rfl, rfl, rfl, ?_⟩
  · intro hfull
    simp [AsyncStep.enqueue, Q64.enqueue, Nat.not_lt.2 hfull]
  · intro hfull
    cases g with
    | mk dq pq =>
      simp only [AsyncStep.enqueue_default, AsyncStep.enqueue, Q64.enqueue] at *
      simp [Nat.not_lt.2 hfull]

/-- Witness for C9 at a concrete input: enqueueing onto the full default queue
returns the globals unchanged, with no failure indication. -/
theorem enqueue_discards_result_witness :
    AsyncStep.enqueue_default (AsyncStep.Stop : AsyncStep Nat Nat Nat)
        ⟨List.replicate capacity AsyncStep.Stop, []⟩ =
      ⟨List.replicate capacity AsyncStep.Stop, []⟩ :=
  (enqueue_discards_result AsyncStep.Stop []
      ⟨List.replicate capacity AsyncStep.Stop, []⟩).2.2.2.2.2.2 (by simp)

/-- Claim C10: frame conditions of `dispatch`: every variant other than
`Notify` leaves the state unchanged, and `Notify` changes it only when the
transition returns `Next`; dispatch itself enqueues only in the `Notify`
branch when a command is produced — the `Perform` branch changes the queue
only through the handler's own notify calls, and the raw-callback and `Stop`
branches leave the queue unchanged. -/
theorem dispatch_frame {St Cmd Ev H F : Type}
    (transition : St → Ev → Option Cmd × Transition St)
    (handle : H → Cmd → H × List Ev)
    (q : List (AsyncStep Cmd Ev F)) (s : St) (h : H)
    (f : F) (a a0 a1 : Nat) (c : Cmd) (e : Ev) :
    (dispatch transition handle (.StepUnit f) q s h).state = s ∧
    (dispatch transition handle (.StepUnit f) q s h).queue = q ∧
    (dispatch transition handle (.StepU32 f a) q s h).state = s ∧
    (dispatch transition handle (.StepU32 f a) q s h).queue = q ∧
    (dispatch transition handle (.Step2U32 f a0 a1) q s h).state = s ∧
    (dispatch transition handle (.Step2U32 f a0 a1) q s h).queue = q ∧
    (dispatch transition handle .Stop q s h).state = s ∧
    (dispatch transition handle .Stop q s h).queue = q ∧
    (dispatch transition handle (.Perform c) q s h).state = s ∧
    (dispatch transition handle (.Perform c) q s h).queue =
      (handle h c).2.foldl AsyncQueue.notify q ∧
    ((transition s e).2 = Transition.Same →
      (dispatch transition handle (.Notify e) q s h).state = s) ∧
    (∀ s', (transition s e).2 = Transition.Next s' →
      (dispatch transition handle (.Notify e) q s h).state = s') ∧
    ((transition s e).1 = none →
      (dispatch transition handle (.Notify e) q s h).queue = q) := by
  refine ⟨rfl, rfl, rfl, rfl, rfl, rfl, rfl, rfl, rfl, rfl, ?_, ?_, ?_⟩
  · intro ht; simp [dispatch, ht]
  · intro s' ht; simp [dispatch, ht]
  · intro ho; simp [dispatch, ho]

/-- Witness for C10 at a concrete input: a `Notify` whose transition returns
`(None, Same)` leaves both state and queue unchanged. -/
theorem dispatch_frame_witness :
    (dispatch tSame hDemo (AsyncStep.Notify (2 : Nat))
        ([AsyncStep.Stop] : List (AsyncStep Nat Nat Nat)) 7 0).state = 7 ∧
    (dispatch tSame hDemo (AsyncStep.Notify (2 : Nat))
        ([AsyncStep.Stop] : List (AsyncStep Nat Nat Nat)) 7 0).queue = [AsyncStep.Stop] := by
  obtain ⟨-, -, -, -, -, -, -, -, -, -, h11, h12, h13⟩ :=
    dispatch_frame tSame hDemo ([AsyncStep.Stop] : List (AsyncStep Nat Nat Nat)) 7 0 0 0 0 0 0 2
  exact ⟨h11 (by decide), h13 (by decide)⟩

/-- Claim C3: each iteration of `run_queue_hilo` tries the priority queue
first; the default queue is attempted only when the priority queue is empty at
that instant, and the idle-wait runs only when both queues are empty; hence
with both queues non-empty the priority queue's head is dispatched before any
default-queue item. -/
theorem run_queue_hilo_priority {St Cmd Ev H F : Type}
    (transition : St → Ev → Option Cmd × Transition St)
    (handle : H → Cmd → H × List Ev)
    (n : Nat) (hi lo : List (AsyncStep Cmd Ev F)) (s : St) (h : H) :
    (∀ x hi', hi = x :: hi' →
      (run_queue_hilo transition handle (n + 1) hi lo s h).dispatched.head? = some x) ∧
    (∀ y lo', lo = y :: lo' →
      (run_queue_hilo transition handle (n + 1) ([] : List (AsyncStep Cmd Ev F)) lo
          s h).dispatched.head? = some y) ∧
    run_queue_hilo transition handle (n + 1) ([] : List (AsyncStep Cmd Ev F)) [] s h =
      ⟨.idle, s, [], [], h, [], []⟩ := by
  refine ⟨?_, ?_, rfl⟩
  · rintro x hi' rfl
    simp only [run_queue_hilo, Q64.dequeue]
    split <;> simp
  · rintro y lo' rfl
    simp only [run_queue_hilo, Q64.dequeue]
    split <;> simp

/-- Witness for C3 at a concrete input: with both queues non-empty, the
priority queue's head is the first step dispatched. -/
theorem run_queue_hilo_priority_witness :
    (run_queue_hilo tDemo hDemo 1 ([AsyncStep.Stop] : List (AsyncStep Nat Nat Nat))
        [AsyncStep.StepUnit 4] 0 0).dispatched.head? = some AsyncStep.Stop :=
  (run_queue_hilo_priority tDemo hDemo 0 [AsyncStep.Stop] [AsyncStep.StepUnit 4] 0 0).1
    AsyncStep.Stop [] rfl

/-- Claim C4: running the single-queue loop on `[Notify e, Stop, StepUnit f]`
terminates at the `Stop` with `f` never invoked (the effect trace is empty and
`StepUnit f`, enqueued after the `Stop`, remains undispatched in the queue),
returning the state as updated by the transition on `e`. -/
theorem run_queue_stop_semantics {St Cmd Ev H F : Type}
    (transition : St → Ev → Option Cmd × Transition St)
    (handle : H → Cmd → H × List Ev)
    (n : Nat) (e : Ev) (f : F) (s : St) (h : H) :
    run_queue transition handle (n + 2) [.Notify e, .Stop, .StepUnit f] s h =
      ⟨.stopped,
       (match (transition s e).2 with
         | .Next s' => s'
         | .Same => s),
       .StepUnit f ::
         (match (transition s e).1 with
           | some c => [.Perform c]
           | none => []),
       h, [], [.Notify e, .Stop]⟩ := by
  rcases htr : transition s e with ⟨o, t⟩
  cases o <;> cases t <;>
    simp [run_queue, Q64.dequeue, dispatch, htr, AsyncStep.enqueue, Q64.enqueue, capacity]

/-- Enqueuing a list of items onto a queue holding at most `capacity` items
keeps the first `capacity` items of queue-then-items and fails once per item
beyond capacity. -/
theorem enqueueAll_spec {α : Type} (xs : List α) :
    ∀ q : List α, q.length ≤ capacity →
      enqueueAll xs q = ((q ++ xs).take capacity, q.length + xs.length - capacity) := by
  induction xs with
  | nil =>
    intro q hq
    simp [enqueueAll, List.take_of_length_le hq, Nat.sub_eq_zero_of_le hq]
  | cons x xs ih =>
    intro q hq
    by_cases hlt : q.length < capacity
    · have hlen : (q ++ [x]).length ≤ capacity := by
        simp only [List.length_append, List.length_cons, List.length_nil]
        omega
      simp only [enqueueAll, Q64.enqueue, hlt, if_true, if_pos]
      rw [ih (q ++ [x]) hlen]
      simp only [List.append_assoc, List.singleton_append, List.length_append,
        List.length_cons, List.length_nil, Prod.mk.injEq]
      exact ⟨trivial, by omega⟩
    · have hfull : q.length = capacity := le_antisymm hq (Nat.not_lt.1 hlt)
      have htake : ∀ l : List α, (q ++ l).take capacity = q := by
        intro l
        rw [← hfull]
        exact List.take_left q l
      simp only [enqueueAll, Q64.enqueue, hlt, if_false]
      rw [ih q hq]
      simp only [Prod.mk.injEq, htake, List.length_cons, Bool.false_eq_true, if_false]
      exact ⟨trivial, by omega⟩

/-- Draining a queue for as many steps as it has items returns exactly its
items, in FIFO order. -/
theorem drain_eq {α : Type} : ∀ q : List α, drain q.length q = q := by
  intro q
  induction q with
  | nil => rfl
  | cons x xs ih => simp [drain, Q64.dequeue, List.length_cons, ih]

/-- Claim C8: the queues have fixed capacity 64: enqueuing 65 steps into an
empty queue with no intervening dequeues makes exactly one enqueue call report
failure, and exactly 64 items (the first 64, in enqueue order) are then
retrievable by dequeue. -/
theorem overflow_spec {α : Type} (xs : List α) (h65 : xs.length = 65) :
    (enqueueAll xs []).2 = 1 ∧
    (enqueueAll xs []).1.length = capacity ∧
    drain capacity (enqueueAll xs []).1 = xs.take capacity := by
  have hspec := enqueueAll_spec xs [] (by simp [capacity])
  simp only [List.nil_append, List.length_nil, Nat.zero_add] at hspec
  rw [hspec]
  have hl : (xs.take capacity).length = capacity := by
    simp [List.length_take, h65, capacity]
  refine ⟨?_, ?_, ?_⟩
  · simp [h65, capacity]
  · exact hl
  · have hd := drain_eq (xs.take capacity)
    rw [hl] at hd
    exact hd

/-- Witness for C8 at a concrete input: 65 concrete items. -/
theorem overflow_spec_witness :
    (enqueueAll (List.range 65) ([] : List Nat)).2 = 1 ∧
    (enqueueAll (List.range 65) ([] : List Nat)).1.length = capacity ∧
    drain capacity (enqueueAll (List.range 65) ([] : List Nat)).1 =
      (List.range 65).take capacity :=
  overflow_spec (List.range 65) (by simp)
